import Mathlib

/-!
# Verification of the Kindle clippings parser (src/main.py)

Shallow embedding of the parser in Lean 4.  Text is modelled as `List Char`
(one element per Unicode code point, matching Python `str` indexing).  The
mutable `KindleParser` object is modelled by explicit state passing; Python
exceptions are modelled with `Except`; optional fields with `Option`.

Every definition is translated from `src/main.py` unless its name and doc
comment say it follows the specification text (those are comparison
definitions used to settle refinement claims).
-/

/-! ## Basic text helpers (Python string primitives used by the parser) -/

/-- Python `str.strip()` whitespace set, restricted to ASCII: space, tab,
newline, carriage return, vertical tab, form feed.  All text reaching
`strip` in the program has been cleaned to code points < 128. -/
def isPySpace (c : Char) : Bool :=
  c = ' ' || c = '\t' || c = '\n' || c = '\r' || c.toNat = 11 || c.toNat = 12

/-- ASCII decimal digit test (Python regex `\d` on ASCII text). -/
def isAsciiDigit (c : Char) : Bool :=
  48 ≤ c.toNat && c.toNat ≤ 57

/-- Python regex `\w` on ASCII text: letters, digits, underscore. -/
def isWordChar (c : Char) : Bool :=
  (65 ≤ c.toNat && c.toNat ≤ 90) || (97 ≤ c.toNat && c.toNat ≤ 122) ||
    isAsciiDigit c || c = '_'

/-- Numeric value of a digit string (Python `int(...)` on a `\d+` capture). -/
def digitsVal (ds : List Char) : Nat :=
  ds.foldl (fun a c => 10 * a + (c.toNat - 48)) 0

/-- Python `str.strip()`: drop leading and trailing whitespace. -/
def pyStrip (s : List Char) : List Char :=
  ((s.dropWhile isPySpace).reverse.dropWhile isPySpace).reverse

/-- Python `str.split(sep)` for a single-character separator `sep`
(used for `split('\n')`, `split('(')`, `split(',')`). -/
def splitChar (sep : Char) : List Char → List (List Char)
  | [] => [[]]
  | x :: xs =>
    if x = sep then [] :: splitChar sep xs
    else
      match splitChar sep xs with
      | [] => [[x]]
      | y :: ys => (x :: y) :: ys

/-- Python `str.rstrip(')')`: drop all trailing `)` characters
(used by `parse_book_info`). -/
def rstripParen (s : List Char) : List Char :=
  (s.reverse.dropWhile (fun c => c = ')')).reverse

/-- `KindleParser.clean_text` (src/main.py line 81-83): every character with
code point ≥ 128 becomes a single space; characters below 128 are kept. -/
def clean_text (s : List Char) : List Char :=
  s.map (fun c => if c.toNat < 128 then c else ' ')

/-! ## The entry splitter -/

/-- Worker for Python `str.split("==========")`.  `k` counts the pending run
of consecutive `=` characters (0‥9) not yet committed to the current
segment; `acc` is the current segment so far, reversed, without the pending
run.  When the tenth consecutive `=` arrives the current segment is emitted:
this reproduces Python `str.split`, which removes each leftmost
non-overlapping occurrence of the ten-`=` separator substring. -/
def splitEqAux : List Char → Nat → List Char → List (List Char)
  | [], k, acc => [(List.replicate k '=' ++ acc).reverse]
  | x :: xs, k, acc =>
    if x = '=' then
      if k = 9 then acc.reverse :: splitEqAux xs 0 []
      else splitEqAux xs (k + 1) acc
    else splitEqAux xs 0 (x :: (List.replicate k '=' ++ acc))

/-- Python `content.split("==========")` (src/main.py line 88). -/
def splitEq (s : List Char) : List (List Char) :=
  splitEqAux s 0 []

/-- The ten-`=` delimiter substring. -/
def tenEq : List Char :=
  ['=', '=', '=', '=', '=', '=', '=', '=', '=', '=']

/-! ## Data model (the dataclasses of src/main.py) -/

/-- Dataclass `Location`.  The Python field `end` is a Lean keyword, so it is
called `endLoc` here. -/
structure Location where
  start : Nat
  endLoc : Option Nat := none
deriving DecidableEq, Repr, Inhabited

/-- Result of `datetime.strptime`: a plain calendar timestamp. -/
structure DateTime where
  year : Nat
  month : Nat
  day : Nat
  hour : Nat
  minute : Nat
  second : Nat
deriving DecidableEq, Repr, Inhabited

/-- Dataclass `Note`. -/
structure Note where
  content : List Char
  date_added : DateTime
  page : Option Nat
  location : Option Location := none
deriving DecidableEq, Repr

/-- Dataclass `Highlight`. -/
structure Highlight where
  content : List Char
  date_added : DateTime
  page : Option Nat
  note : Option Note := none
  location : Option Location := none
deriving DecidableEq, Repr

/-- The bookmark dict `{"location", "date_added", "page"}` built by
`add_bookmark`. -/
structure Bookmark where
  location : Option Location
  date_added : DateTime
  page : Option Nat
deriving DecidableEq, Repr

/-- Dataclass `Book`. -/
structure Book where
  title : List Char
  authors : List (List Char)
  highlights : List Highlight := []
  notes : List Note := []
  bookmarks : List Bookmark := []
deriving DecidableEq, Repr

/-- The distinct Python exceptions that the per-block error handler can
record; `str(e)` of each is determined by the constructor and its payload.
`invalidEntry i` is `ValueError("Invalid entry format at line i")`;
`invalidMetadata line` is `ValueError("Invalid metadata format: line")`;
`timeData s` is the `ValueError` raised by `datetime.strptime` on data `s`;
`attrNoneStart` is the `AttributeError` raised by reading `.start` on a
`None` location. -/
inductive EMsg where
  | invalidEntry (lineNumber : Nat)
  | invalidMetadata (line : List Char)
  | timeData (data : List Char)
  | attrNoneStart
deriving DecidableEq, Repr

/-- Dataclass `Error`. -/
structure Error where
  line_number : Nat
  error_message : EMsg
deriving DecidableEq, Repr

/-- The mutable state of a `KindleParser` object.  Books are kept in a list
in insertion order with unique titles, matching the Python dict keyed by
title. -/
structure KindleParser where
  books : List Book
  errors : List Error
  processed_entries : List (List Char)
  last_processed_timestamp : Option DateTime
deriving DecidableEq, Repr

deriving instance DecidableEq for Except

/-- `KindleParser.is_processed` (src/main.py line 176-177). -/
def is_processed (st : KindleParser) (entry_id : List Char) : Bool :=
  st.processed_entries.contains entry_id

/-! ## Metadata pattern extraction (`KindleParser.parse_metadata`)

Each `search*` function models one of the four `re.search` calls of
src/main.py lines 124-127 as a left-to-right scan for the leftmost match.
The program only ever applies them to a single cleaned line, so the
modelled `\w` and `.` classes are their ASCII restrictions and `$` is end
of string (the line contains no newline). -/

/-- The search for the regex `Your (\w+)`: capture of the first `Your ` followed by
at least one word character. -/
def searchYour : List Char → Option (List Char)
  | [] => none
  | c :: cs =>
    let w := ((c :: cs).drop 5).takeWhile isWordChar
    if ("Your ".data.isPrefixOf (c :: cs)) && !w.isEmpty then some w
    else searchYour cs

/-- The search for the regex `page (\d+)` followed by `int(...)` on the capture. -/
def searchPage : List Char → Option Nat
  | [] => none
  | c :: cs =>
    let ds := ((c :: cs).drop 5).takeWhile isAsciiDigit
    if ("page ".data.isPrefixOf (c :: cs)) && !ds.isEmpty then
      some (digitsVal ds)
    else searchPage cs

/-- The search for the regex `Location (\d+)(?:-(\d+))?` together with the
`Location(start, end)` construction of src/main.py lines 135-138. -/
def searchLocation : List Char → Option Location
  | [] => none
  | c :: cs =>
    let after := (c :: cs).drop 9
    let d1 := after.takeWhile isAsciiDigit
    if ("Location ".data.isPrefixOf (c :: cs)) && !d1.isEmpty then
      match after.drop d1.length with
      | '-' :: r2 =>
        let d2 := r2.takeWhile isAsciiDigit
        if d2.isEmpty then some ⟨digitsVal d1, none⟩
        else some ⟨digitsVal d1, some (digitsVal d2)⟩
      | _ => some ⟨digitsVal d1, none⟩
    else searchLocation cs

/-- The search for the regex `Added on (.+)$`: everything after the first
`Added on ` that is followed by at least one character. -/
def searchAddedOn : List Char → Option (List Char)
  | [] => none
  | c :: cs =>
    let rest := (c :: cs).drop 9
    if ("Added on ".data.isPrefixOf (c :: cs)) && !rest.isEmpty then some rest
    else searchAddedOn cs

/-! ## `datetime.strptime` for the fixed format
`%A, %B %d, %Y %I:%M:%S %p`

Follows CPython `_strptime`: each `%`-directive becomes the regex CPython
compiles for it (names matched case-insensitively, numeric directives with
their bounded one/two-digit patterns, whitespace in the format matching one
or more whitespace characters), the match is anchored and must consume the
whole string, and the resulting values must form a valid `datetime`. -/

/-- Lower-case an ASCII letter (for `re.IGNORECASE` name matching). -/
def toLowerCh (c : Char) : Char :=
  if 65 ≤ c.toNat ∧ c.toNat ≤ 90 then Char.ofNat (c.toNat + 32) else c

/-- Match one fixed lower-case name case-insensitively as a prefix,
returning the rest of the input. -/
def matchNameCI : List Char → List Char → Option (List Char)
  | [], s => some s
  | _ :: _, [] => none
  | p :: ps, c :: cs => if toLowerCh c = p then matchNameCI ps cs else none

/-- Match the first of a list of names (regex alternation), returning its
index and the rest of the input. -/
def matchAlt : List (List Char) → Nat → List Char → Option (Nat × List Char)
  | [], _, _ => none
  | n :: ns, i, s =>
    match matchNameCI n s with
    | some r => some (i, r)
    | none => matchAlt ns (i + 1) s

/-- Weekday names for `%A`. -/
def weekdayNames : List (List Char) :=
  ["monday".data, "tuesday".data, "wednesday".data, "thursday".data,
   "friday".data, "saturday".data, "sunday".data]

/-- Month names for `%B`. -/
def monthNames : List (List Char) :=
  ["january".data, "february".data, "march".data, "april".data, "may".data,
   "june".data, "july".data, "august".data, "september".data,
   "october".data, "november".data, "december".data]

/-- AM/PM names for `%p`. -/
def ampmNames : List (List Char) :=
  ["am".data, "pm".data]

/-- One literal character of the format. -/
def parseLit (ch : Char) : List Char → Option (List Char)
  | [] => none
  | c :: cs => if c = ch then some cs else none

/-- `\s+`: at least one whitespace character, consumed greedily. -/
def parseWs : List Char → Option (List Char)
  | [] => none
  | c :: cs => if isPySpace c then some (cs.dropWhile isPySpace) else none

/-- `%d` — CPython pattern `(3[01]|[12]\d|0[1-9]|[1-9])`: one digit 1-9 or
two digits with value 01-31. -/
def parseDay (s : List Char) : Option (Nat × List Char) :=
  let ds := s.takeWhile isAsciiDigit
  let v := digitsVal ds
  if ds.length = 1 ∧ 1 ≤ v then some (v, s.drop 1)
  else if ds.length = 2 ∧ 1 ≤ v ∧ v ≤ 31 then some (v, s.drop 2)
  else none

/-- `%Y` — CPython pattern `\d\d\d\d`: exactly four digits. -/
def parseYear (s : List Char) : Option (Nat × List Char) :=
  let ds := s.take 4
  if ds.length = 4 ∧ ds.all isAsciiDigit then some (digitsVal ds, s.drop 4)
  else none

/-- `%I` — CPython pattern `(1[0-2]|0[1-9]|[1-9])`: one digit 1-9 or two
digits with value 01-12. -/
def parseHour12 (s : List Char) : Option (Nat × List Char) :=
  let ds := s.takeWhile isAsciiDigit
  let v := digitsVal ds
  if ds.length = 1 ∧ 1 ≤ v then some (v, s.drop 1)
  else if ds.length = 2 ∧ 1 ≤ v ∧ v ≤ 12 then some (v, s.drop 2)
  else none

/-- `%M` — CPython pattern `([0-5]\d|\d)`: one digit or two digits 00-59. -/
def parseMinute (s : List Char) : Option (Nat × List Char) :=
  let ds := s.takeWhile isAsciiDigit
  let v := digitsVal ds
  if ds.length = 1 then some (v, s.drop 1)
  else if ds.length = 2 ∧ v ≤ 59 then some (v, s.drop 2)
  else none

/-- `%S` — CPython pattern `(6[01]|[0-5]\d|\d)`: one digit or two digits
00-61. -/
def parseSecond (s : List Char) : Option (Nat × List Char) :=
  let ds := s.takeWhile isAsciiDigit
  let v := digitsVal ds
  if ds.length = 1 then some (v, s.drop 1)
  else if ds.length = 2 ∧ v ≤ 61 then some (v, s.drop 2)
  else none

/-- Gregorian leap year (as validated by `datetime`). -/
def isLeapYear (y : Nat) : Bool :=
  y % 4 = 0 && (y % 100 ≠ 0 || y % 400 = 0)

/-- Days in a month (as validated by `datetime`). -/
def daysInMonth (y m : Nat) : Nat :=
  if m = 2 then (if isLeapYear y then 29 else 28)
  else if m = 4 ∨ m = 6 ∨ m = 9 ∨ m = 11 then 30
  else 31

/-- `%A, ` of the format: weekday name, comma, whitespace. -/
def strpWeekday (s : List Char) : Option (List Char) :=
  match matchAlt weekdayNames 0 s with
  | none => none
  | some (_, r) =>
    match parseLit ',' r with
    | none => none
    | some r2 => parseWs r2

/-- `%B %d, ` of the format: month name, whitespace, day, comma,
whitespace; yields the one-based month and the day. -/
def strpMonthDay (s : List Char) : Option (Nat × Nat × List Char) :=
  match matchAlt monthNames 0 s with
  | none => none
  | some (monIdx, r) =>
    match parseWs r with
    | none => none
    | some r2 =>
      match parseDay r2 with
      | none => none
      | some (day, r3) =>
        match parseLit ',' r3 with
        | none => none
        | some r4 =>
          match parseWs r4 with
          | none => none
          | some r5 => some (monIdx + 1, day, r5)

/-- `%Y %I:` of the format: four-digit year, whitespace, 12-hour hour,
colon. -/
def strpYearHour (s : List Char) : Option (Nat × Nat × List Char) :=
  match parseYear s with
  | none => none
  | some (year, r) =>
    match parseWs r with
    | none => none
    | some r2 =>
      match parseHour12 r2 with
      | none => none
      | some (hh, r3) =>
        match parseLit ':' r3 with
        | none => none
        | some r4 => some (year, hh, r4)

/-- `%M:%S ` of the format: minute, colon, second, whitespace. -/
def strpMinSec (s : List Char) : Option (Nat × Nat × List Char) :=
  match parseMinute s with
  | none => none
  | some (minute, r) =>
    match parseLit ':' r with
    | none => none
    | some r2 =>
      match parseSecond r2 with
      | none => none
      | some (second, r3) =>
        match parseWs r3 with
        | none => none
        | some r4 => some (minute, second, r4)

/-- `%p` of the format, anchored at the end of the string (CPython raises
`unconverted data remains` otherwise): `0` for AM, `1` for PM. -/
def strpAmPm (s : List Char) : Option Nat :=
  match matchAlt ampmNames 0 s with
  | none => none
  | some (ap, r) => if r = [] then some ap else none

/-- The call `datetime.strptime` with format `%A, %B %d, %Y %I:%M:%S %p`, returning `none`
for any `ValueError` (pattern mismatch, unconverted trailing data, or an
out-of-range value rejected by the `datetime` constructor). -/
def strptime (s : List Char) : Option DateTime :=
  match strpWeekday s with
  | none => none
  | some r1 =>
    match strpMonthDay r1 with
    | none => none
    | some (month, day, r2) =>
      match strpYearHour r2 with
      | none => none
      | some (year, hh, r3) =>
        match strpMinSec r3 with
        | none => none
        | some (minute, second, r4) =>
          match strpAmPm r4 with
          | none => none
          | some ap =>
            let hour := if ap = 1 then (if hh = 12 then 12 else hh + 12)
                        else (if hh = 12 then 0 else hh)
            if 1 ≤ year ∧ day ≤ daysInMonth year month ∧ second ≤ 59 then
              some ⟨year, month, day, hour, minute, second⟩
            else none

/-! ## Field extraction and entry classification -/

/-- `KindleParser.parse_book_info` (src/main.py lines 117-121):
`parts = book_info.split('(')`; the title is `parts[0].strip()`; the
authors are `parts[-1].rstrip(')').split(',')`, each stripped. -/
def parse_book_info (book_info : List Char) : List Char × List (List Char) :=
  let parts := splitChar '(' book_info
  let title := pyStrip (parts.headD [])
  let authors := (splitChar ',' (rstripParen (parts.getLastD []))).map pyStrip
  (title, authors)

/-- `KindleParser.parse_metadata` (src/main.py lines 123-144).  Raises
`ValueError("Invalid metadata format: ...")` when the type or the
`Added on ` text cannot be extracted, otherwise parses the timestamp (whose
failure is a different `ValueError`). -/
def parse_metadata (metadata : List Char) :
    Except EMsg (List Char × Option Nat × Option Location × DateTime) :=
  let entry_type_match := searchYour metadata
  let page_match := searchPage metadata
  let location_match := searchLocation metadata
  let date_match := searchAddedOn metadata
  match entry_type_match, date_match with
  | some entry_type, some d =>
    match strptime d with
    | some date_added => .ok (entry_type, page_match, location_match, date_added)
    | none => .error (.timeData d)
  | _, _ => .error (.invalidMetadata metadata)

/-! ## Entry classifier & merger -/

/-- `KindleParser.get_or_create_book` (src/main.py lines 168-171): a book is
created (with the given authors) only when no book with this title exists;
the new book is appended, matching dict insertion order. -/
def get_or_create_book (books : List Book) (title : List Char)
    (authors : List (List Char)) : List Book :=
  if books.any (fun b => b.title = title) then books
  else books ++ [{ title := title, authors := authors }]

/-- Replace the book with the given title by `f` applied to it (in-place
mutation of the object fetched from the dict). -/
def updateBook (books : List Book) (title : List Char) (f : Book → Book) :
    List Book :=
  books.map (fun b => if b.title = title then f b else b)

/-- `KindleParser.add_highlight` (src/main.py lines 146-149). -/
def add_highlight (books : List Book) (title : List Char)
    (authors : List (List Char)) (content : List Char)
    (location : Option Location) (date_added : DateTime)
    (page : Option Nat) : List Book :=
  updateBook (get_or_create_book books title authors) title
    (fun b => { b with highlights :=
      b.highlights ++ [{ content := content, date_added := date_added,
                         page := page, note := none, location := location }] })

/-- The generator scan of `KindleParser.add_note` (src/main.py line 156),
acting on the reversed highlight list:
`next((h for h in reversed(book.highlights) if h.location.start ==
note.location.start), None)`.
Python evaluates `h.location.start` and then `note.location.start` for each
candidate, raising `AttributeError` as soon as either location is `None`.
On success the result is the reversed highlight list with the first
`note` field of the first matching highlight overwritten (the in-place mutation
`matching_highlight.note = note`), or `none` when no highlight matches. -/
def noteMatchScan (note : Note) :
    List Highlight → Except Unit (Option (List Highlight))
  | [] => .ok none
  | h :: hs =>
    match h.location with
    | none => .error ()
    | some hl =>
      match note.location with
      | none => .error ()
      | some nl =>
        if hl.start = nl.start then .ok (some ({ h with note := some note } :: hs))
        else
          match noteMatchScan note hs with
          | .error e => .error e
          | .ok none => .ok none
          | .ok (some hs2) => .ok (some (h :: hs2))

/-- The body of `KindleParser.add_note` (src/main.py lines 151-161) acting
on one book: attach the note to the most recently appended highlight whose
location start equals that of the note, or else append it to `book.notes`.  The
error is the `AttributeError` escaping from the scan. -/
def add_note (book : Book) (note : Note) : Except Unit Book :=
  match noteMatchScan note book.highlights.reverse with
  | .error e => .error e
  | .ok (some revHs) => .ok { book with highlights := revHs.reverse }
  | .ok none => .ok { book with notes := book.notes ++ [note] }

/-- `KindleParser.add_note` at the state level: `get_or_create_book` runs
first, so when the scan raises, the fetched-or-created book remains in
`self.books`; the error case therefore carries the book list as mutated so
far. -/
def add_note_state (books : List Book) (title : List Char)
    (authors : List (List Char)) (content : List Char)
    (date_added : DateTime) (location : Option Location)
    (page : Option Nat) : Except (List Book) (List Book) :=
  let books1 := get_or_create_book books title authors
  let note : Note := { content := content, date_added := date_added,
                       page := page, location := location }
  match books1.find? (fun b => b.title = title) with
  | none => .ok books1
  | some b =>
    match add_note b note with
    | .error _ => .error books1
    | .ok b2 => .ok (updateBook books1 title (fun _ => b2))

/-- `KindleParser.add_bookmark` (src/main.py lines 163-166). -/
def add_bookmark (books : List Book) (title : List Char)
    (authors : List (List Char)) (location : Option Location)
    (date_added : DateTime) (page : Option Nat) : List Book :=
  updateBook (get_or_create_book books title authors) title
    (fun b => { b with bookmarks :=
      b.bookmarks ++ [{ location := location, date_added := date_added,
                        page := page }] })

/-- `KindleParser.parse_entry` (src/main.py lines 97-115).  The method only
reads and writes `self.books`; an exception aborts it, leaving the
mutations performed so far (a book created by `get_or_create_book` before
`add_note` raised survives), so the error case carries the book list as
mutated so far together with the exception. -/
def parse_entry (books : List Book) (entry : List Char)
    (line_number : Nat) : Except (List Book × EMsg) (List Book) :=
  match splitChar '\n' entry with
  | line0 :: line1 :: rest =>
    let book_info := pyStrip line0
    let metadata := pyStrip line1
    let ta := parse_book_info book_info
    match parse_metadata metadata with
    | .error e => .error (books, e)
    | .ok (entry_type, page, location, date_added) =>
      let content := pyStrip (List.intercalate ['\n'] rest)
      if entry_type = "Highlight".data then
        .ok (add_highlight books ta.1 ta.2 content location date_added page)
      else if entry_type = "Note".data then
        match add_note_state books ta.1 ta.2 content date_added location page with
        | .ok bs => .ok bs
        | .error bs => .error (bs, .attrNoneStart)
      else if entry_type = "Bookmark".data then
        .ok (add_bookmark books ta.1 ta.2 location date_added page)
      else .ok books
  | _ => .error (books, .invalidEntry line_number)

/-- One iteration of the loop of `KindleParser.parse_clippings`
(src/main.py lines 89-95): strip the block, skip it when empty, otherwise
run `parse_entry` and convert an exception into an appended `Error` with
the index of the block. -/
def parse_step (st : KindleParser) (p : Nat × List Char) : KindleParser :=
  let entry := pyStrip p.2
  if entry = [] then st
  else
    match parse_entry st.books entry p.1 with
    | .ok bs => { st with books := bs }
    | .error (bs, m) =>
      { st with books := bs, errors := st.errors ++ [⟨p.1, m⟩] }

/-- `KindleParser.parse_clippings` (src/main.py lines 85-95): clean the
content, split it on the ten-`=` substring, and fold the per-block step
over the enumerated blocks. -/
def parse_clippings (st : KindleParser) (content : List Char) : KindleParser :=
  ((splitEq (clean_text content)).enum).foldl parse_step st

/-! ## Specification-side comparison definitions

The following definitions are NOT translations of src/main.py: each follows
the words of one claim of the specification, and is compared against the
corresponding source translation by a theorem. -/

/-- Spec version of the normalizer for claim C6: replace every character
outside the 7-bit PRINTABLE range (code points 32-126) with a space. -/
def cleanTextPrintableSpec (s : List Char) : List Char :=
  s.map (fun c => if 32 ≤ c.toNat ∧ c.toNat ≤ 126 then c else ' ')

/-- Splits a list of lines at the lines equal to `tenEq` (helper for the
spec version of the splitter, claim C7). -/
def splitAtDelimiterLinesAux : List (List Char) → List (List (List Char))
  | [] => [[]]
  | l :: ls =>
    if l = tenEq then [] :: splitAtDelimiterLinesAux ls
    else
      match splitAtDelimiterLinesAux ls with
      | [] => [[l]]
      | g :: gs => (l :: g) :: gs

/-- Spec version of the splitter for claim C7: divide the text at delimiter
LINES consisting of exactly ten consecutive `=` characters. -/
def splitOnDelimiterLines (s : List Char) : List (List Char) :=
  (splitAtDelimiterLinesAux (splitChar '\n' s)).map (List.intercalate ['\n'])

/-- Spec version for claim C8: the text after the last `(` occurrence (the
whole line when it has no `(`). -/
def afterLastParen (s : List Char) : List Char :=
  (s.reverse.takeWhile (fun c => c ≠ '(')).reverse

/-- Spec version for claim C8: the title is the trimmed text before the
first `(`. -/
def specTitleOf (s : List Char) : List Char :=
  pyStrip (s.takeWhile (fun c => c ≠ '('))

/-- Spec version for claim C8: the author list is the text after the last
`(` with the trailing `)` characters removed, split on commas, each author
trimmed. -/
def specAuthorsOf (s : List Char) : List (List Char) :=
  (splitChar ',' (rstripParen (afterLastParen s))).map pyStrip

/-! ## Auxiliary predicates and sample values used by the theorems -/

/-- `runsOk k s` holds when, scanning `s` with `k` pending consecutive `=`
characters, no run of ten consecutive `=` is ever completed and the scan
ends with no pending `=` (i.e. `s` contains no delimiter occurrence, also
not jointly with a directly following delimiter, and does not end in `=`). -/
def runsOk : Nat → List Char → Bool
  | k, [] => k == 0
  | k, x :: xs =>
    if x = '=' then decide (k + 1 < 10) && runsOk (k + 1) xs
    else runsOk 0 xs

/-- The book list carried by either outcome of a fallible book-list
update. -/
def exceptBooks : Except (List Book) (List Book) → List Book
  | .ok bs => bs
  | .error bs => bs

/-- `authorsStable bs1 bs2`: every book present in `bs1` is still present
in `bs2` (looked up by title) with an unchanged author list. -/
def authorsStable (bs1 bs2 : List Book) : Prop :=
  ∀ title b, bs1.find? (fun x => x.title = title) = some b →
    ∃ b2, bs2.find? (fun x => x.title = title) = some b2 ∧
      b2.authors = b.authors

/-- Sample timestamp. -/
def dtS : DateTime := ⟨2024, 1, 1, 8, 0, 0⟩

/-- Sample highlight located at start 5. -/
def hlLoc5 : Highlight :=
  { content := "q".data, date_added := dtS, page := none,
    location := some ⟨5, none⟩ }

/-- Sample highlight with an absent location. -/
def hlNoLoc : Highlight :=
  { content := "r".data, date_added := dtS, page := none, location := none }

/-- Sample note located at start 5. -/
def noteLoc5 : Note :=
  { content := "n".data, date_added := dtS, page := none,
    location := some ⟨5, none⟩ }

/-- Sample note located at start 9. -/
def noteLoc9 : Note :=
  { content := "n".data, date_added := dtS, page := none,
    location := some ⟨9, none⟩ }

/-- Sample note with an absent location. -/
def noteNoLoc : Note :=
  { content := "n".data, date_added := dtS, page := none, location := none }

/-- Sample book holding a matching highlight and then a more recent
highlight with an absent location. -/
def bookC1 : Book :=
  { title := "B".data, authors := ["A0".data],
    highlights := [hlLoc5, hlNoLoc] }

/-- Sample book holding one located highlight. -/
def bookC2 : Book :=
  { title := "B".data, authors := ["A0".data], highlights := [hlLoc5] }

/-- Sample parser state already holding `bookC2`. -/
def stC9 : KindleParser := ⟨[bookC2], [], [], none⟩

/-- A clippings text whose single entry carries the title of `bookC2` with
a different author list. -/
def contentC9 : List Char :=
  ("B (Somebody Else)\n- Your Bookmark on page 4 | Added on Monday, January 1, 2024 8:00:00 AM").data

/-! ## Claim C6 — text normalization -/

/-- Claim C6, counterexample.  The claim says every character outside the
7-bit PRINTABLE range is replaced by a space; the tab character (code
point 9) is outside that range, yet `clean_text` keeps it: the code only
replaces characters with code point at least 128. -/
theorem claim_C6_counterexample :
    clean_text ['\t'] = ['\t'] ∧ cleanTextPrintableSpec ['\t'] = [' '] ∧
      clean_text ['\t'] ≠ cleanTextPrintableSpec ['\t'] := by
  decide

/-- Claim C6, amended.  `clean_text` replaces exactly the characters with
code point at least 128 (outside the 7-bit range) by a single space and
keeps every character below 128 — including non-printable control
characters — unchanged; it preserves the length (and hence, since `\n` has
code point 10 and is kept, the line structure), and it is idempotent. -/
theorem claim_C6_amended (s : List Char) :
    (clean_text s).length = s.length ∧
      clean_text (clean_text s) = clean_text s ∧
      ∀ i : Nat, ∀ c : Char, s[i]? = some c →
        (clean_text s)[i]? = some (if c.toNat < 128 then c else ' ') := by
  refine ⟨by simp [clean_text], ?_, ?_⟩
  · induction s with
    | nil => rfl
    | cons c cs ih =>
      simp only [clean_text, List.map_cons, List.cons.injEq] at ih ⊢
      constructor
      · by_cases h : c.toNat < 128
        · simp [h]
        · simp [h]
      · simpa [clean_text] using ih
  · intro i c h
    simp [clean_text, List.getElem?_map, h]

/-- Claim C6 amended, witness: the character with code point 200 is mapped
to a space. -/
theorem claim_C6_amended_witness :
    (clean_text [Char.ofNat 200])[0]? =
      some (if (Char.ofNat 200).toNat < 128 then Char.ofNat 200 else ' ') :=
  (claim_C6_amended [Char.ofNat 200]).2.2 0 (Char.ofNat 200) (by decide)

/-! ## Claim C4 — malformed (single-line) blocks -/

/-- Claim C4.  A non-empty block that has fewer than two lines makes
`parse_entry` raise, and the batch loop converts this into exactly one
appended `Error` carrying the index of the block and the
invalid-entry-format message; the book collection is untouched and no
exception escapes (the step is a total function). -/
theorem claim_C4 (st : KindleParser) (i : Nat) (entry : List Char)
    (h1 : pyStrip entry ≠ [])
    (h2 : (splitChar '\n' (pyStrip entry)).length < 2) :
    parse_step st (i, entry) =
      { st with errors := st.errors ++ [⟨i, EMsg.invalidEntry i⟩] } := by
  have hmatch : parse_entry st.books (pyStrip entry) i =
      .error (st.books, .invalidEntry i) := by
    rcases hsp : splitChar '\n' (pyStrip entry) with _ | ⟨l0, t⟩
    · simp [parse_entry, hsp]
    · rcases t with _ | ⟨l1, rest⟩
      · simp [parse_entry, hsp]
      · rw [hsp] at h2
        simp at h2
        omega
  simp [parse_step, h1, hmatch]

/-- Claim C4, witness at a concrete single-line block. -/
theorem claim_C4_witness :
    parse_step ⟨[], [], [], none⟩ (3, "  hello ".data) =
      ⟨[], [⟨3, EMsg.invalidEntry 3⟩], [], none⟩ := by
  have h := claim_C4 ⟨[], [], [], none⟩ 3 ("  hello ".data) (by decide) (by decide)
  simpa using h

/-! ## Claim C5 — metadata extraction failure conditions -/

/-- Claim C5.  `parse_metadata` yields the `ValueError` citing the raw
metadata line exactly when the entry type (the word after `Your `) or the
`Added on ` text cannot be extracted; it succeeds exactly when both are
extracted and the timestamp text parses, so the absence of the optional
page and location never causes a failure.  The two domain hypotheses
record that metadata lines are single cleaned lines (ASCII, no newline),
which is how the program always calls `parse_metadata`. -/
theorem claim_C5 (m : List Char) (_hascii : ∀ c ∈ m, c.toNat < 128)
    (_hnl : ('\n') ∉ m) :
    ((parse_metadata m = .error (.invalidMetadata m)) ↔
       (searchYour m = none ∨ searchAddedOn m = none)) ∧
    ((∃ r, parse_metadata m = .ok r) ↔
       (∃ t d dt, searchYour m = some t ∧ searchAddedOn m = some d ∧
          strptime d = some dt)) := by
  rcases hy : searchYour m with _ | t <;> rcases hd : searchAddedOn m with _ | d
  · exact ⟨by simp [parse_metadata, hy, hd], by simp [parse_metadata, hy, hd]⟩
  · exact ⟨by simp [parse_metadata, hy, hd], by simp [parse_metadata, hy, hd]⟩
  · exact ⟨by simp [parse_metadata, hy, hd], by simp [parse_metadata, hy, hd]⟩
  · rcases hs : strptime d with _ | dt
    · exact ⟨by simp [parse_metadata, hy, hd, hs], by simp [parse_metadata, hy, hd, hs]⟩
    · exact ⟨by simp [parse_metadata, hy, hd, hs], by simp [parse_metadata, hy, hd, hs]⟩

/-- Claim C5, witness: a line with no `Your ` marker yields the
`ValueError` citing the line. -/
theorem claim_C5_witness :
    parse_metadata ("no entry marker".data) =
      .error (.invalidMetadata ("no entry marker".data)) :=
  (claim_C5 ("no entry marker".data) (by decide) (by decide)).1.mpr
    (Or.inl (by decide))

/-! ## Claim C7 — entry splitting -/

/-- A delimiter occurrence at the head of the remaining input (with no
pending `=`) closes the current segment. -/
theorem splitEqAux_delim (s₂ acc : List Char) :
    splitEqAux (tenEq ++ s₂) 0 acc = acc.reverse :: splitEqAux s₂ 0 [] := by
  simp [tenEq, splitEqAux]

/-- Scanning a `runsOk` prefix accumulates it unchanged, after which a
delimiter occurrence closes the segment. -/
theorem splitEqAux_append_delim (s₁ s₂ : List Char) :
    ∀ k acc, runsOk k s₁ = true →
      splitEqAux (s₁ ++ (tenEq ++ s₂)) k acc =
        (acc.reverse ++ List.replicate k '=' ++ s₁) :: splitEqAux s₂ 0 [] := by
  induction s₁ with
  | nil =>
    intro k acc h
    simp only [runsOk, beq_iff_eq] at h
    subst h
    simpa using splitEqAux_delim s₂ acc
  | cons x xs ih =>
    intro k acc h
    by_cases hx : x = '='
    · subst hx
      simp only [runsOk, if_true, eq_self_iff_true, Bool.and_eq_true,
        decide_eq_true_eq] at h
      have hk9 : ¬ (k = 9) := by omega
      have step : splitEqAux (('=' :: xs) ++ (tenEq ++ s₂)) k acc =
          splitEqAux (xs ++ (tenEq ++ s₂)) (k + 1) acc := by
        simp [splitEqAux, hk9]
      rw [step, ih (k + 1) acc h.2, List.replicate_succ']
      simp [List.append_assoc]
    · have hxs : runsOk 0 xs = true := by
        simpa [runsOk, hx] using h
      have step : splitEqAux ((x :: xs) ++ (tenEq ++ s₂)) k acc =
          splitEqAux (xs ++ (tenEq ++ s₂)) 0 (x :: (List.replicate k '=' ++ acc)) := by
        simp [splitEqAux, hx]
      rw [step, ih 0 (x :: (List.replicate k '=' ++ acc)) hxs]
      simp [List.reverse_replicate, List.append_assoc]

/-- Claim C7, amended.  Splitting divides the text at every leftmost
non-overlapping occurrence of the ten-character `=` substring, whether or
not that occurrence forms a whole line: for any prefix that contains no
such occurrence (also not jointly with the following delimiter) and does
not end in `=`, the text `prefix ++ delimiter ++ rest` splits into
`prefix` followed by the splitting of `rest`. -/
theorem claim_C7_amended (s₁ s₂ : List Char) (h : runsOk 0 s₁ = true) :
    splitEq (s₁ ++ tenEq ++ s₂) = s₁ :: splitEq s₂ := by
  have := splitEqAux_append_delim s₁ s₂ 0 [] h
  simpa [splitEq, List.append_assoc] using this

/-- Claim C7, witness: an occurrence of the delimiter in the middle of a
line splits the text. -/
theorem claim_C7_amended_witness :
    splitEq ("a".data ++ tenEq ++ "b".data) = "a".data :: splitEq "b".data :=
  claim_C7_amended ("a".data) ("b".data) (by decide)

/-- Claim C7, counterexample.  The claim states that only whole delimiter
LINES of exactly ten `=` characters separate entries and that text not
forming such a line is never treated as a separator; but the code splits on
the bare substring: `a==========b` contains no delimiter line, yet the code
produces the two blocks `a` and `b`, unlike the spec-worded splitter. -/
theorem claim_C7_counterexample :
    (∀ line ∈ splitChar '\n' ("a==========b".data), line ≠ tenEq) ∧
      splitEq ("a==========b".data) = ["a".data, "b".data] ∧
      splitOnDelimiterLines ("a==========b".data) = [("a==========b".data)] ∧
      splitEq ("a==========b".data) ≠ splitOnDelimiterLines ("a==========b".data) := by
  decide

/-! ## Claim C8 — header parsing -/

/-- `splitChar` always yields at least one segment. -/
theorem splitChar_ne_nil (c : Char) (s : List Char) : splitChar c s ≠ [] := by
  induction s with
  | nil => simp [splitChar]
  | cons x xs ih =>
    by_cases hx : x = c
    · simp [splitChar, hx]
    · rcases h : splitChar c xs with _ | ⟨y, ys⟩
      · exact absurd h ih
      · simp [splitChar, hx, h]

/-- A separator-free string is returned whole by `splitChar`. -/
theorem splitChar_no_sep (c : Char) (s : List Char) (h : c ∉ s) :
    splitChar c s = [s] := by
  induction s with
  | nil => rfl
  | cons x xs ih =>
    have hx : ¬ (x = c) := fun e => h (e ▸ List.mem_cons_self x xs)
    have hxs : c ∉ xs := fun e => h (List.mem_cons_of_mem x e)
    simp [splitChar, hx, ih hxs]

/-- A string containing the separator splits into at least two segments. -/
theorem splitChar_mem_cons_cons (c : Char) (s : List Char) (h : c ∈ s) :
    ∃ u v w, splitChar c s = u :: v :: w := by
  induction s with
  | nil => cases h
  | cons x xs ih =>
    by_cases hx : x = c
    · rcases hs : splitChar c xs with _ | ⟨z, zs⟩
      · exact absurd hs (splitChar_ne_nil c xs)
      · exact ⟨[], z, zs, by simp [splitChar, hx, hs]⟩
    · have hxs : c ∈ xs := by
        rcases List.mem_cons.mp h with e | e
        · exact absurd e.symm hx
        · exact e
      rcases ih hxs with ⟨u, v, w, huvw⟩
      exact ⟨x :: u, v, w, by simp [splitChar, hx, huvw]⟩

/-- `takeWhile` over an append whose left part is all-satisfying. -/
theorem takeWhile_append_of_all {α : Type} (p : α → Bool) (l l₂ : List α)
    (h : ∀ a ∈ l, p a = true) :
    (l ++ l₂).takeWhile p = l ++ l₂.takeWhile p := by
  induction l with
  | nil => rfl
  | cons a t ih =>
    have ha : p a = true := h a (List.mem_cons_self a t)
    simp [List.takeWhile_cons, ha,
      ih (fun b hb => h b (List.mem_cons_of_mem a hb))]

/-- `takeWhile` over an append whose left part contains a failing
element. -/
theorem takeWhile_append_of_mem_false {α : Type} (p : α → Bool)
    (l l₂ : List α) (h : ∃ a ∈ l, p a = false) :
    (l ++ l₂).takeWhile p = l.takeWhile p := by
  induction l with
  | nil =>
    rcases h with ⟨a, ha, _⟩
    cases ha
  | cons a t ih =>
    by_cases pa : p a = true
    · rcases h with ⟨b, hb, hpb⟩
      rcases List.mem_cons.mp hb with e | hbt
      · rw [e, pa] at hpb
        cases hpb
      · simp [List.takeWhile_cons, pa, ih ⟨b, hbt, hpb⟩]
    · have pa2 : p a = false := by simpa using pa
      simp [List.takeWhile_cons, pa2]

/-- `takeWhile` stops at an appended failing element. -/
theorem takeWhile_append_stop {α : Type} (p : α → Bool) (c : α)
    (l l₂ : List α) (hc : p c = false) :
    (l ++ c :: l₂).takeWhile p = l.takeWhile p := by
  by_cases h : ∀ a ∈ l, p a = true
  · rw [takeWhile_append_of_all p l (c :: l₂) h, List.takeWhile_cons, hc,
      List.takeWhile_eq_self_iff.mpr h]
    simp
  · push_neg at h
    rcases h with ⟨a, ha, hpa⟩
    exact takeWhile_append_of_mem_false p l (c :: l₂)
      ⟨a, ha, by simpa using hpa⟩

/-- The first `splitChar` segment is the text before the first
separator. -/
theorem splitChar_headD (c : Char) (s : List Char) :
    (splitChar c s).headD [] = s.takeWhile (fun a => a ≠ c) := by
  induction s with
  | nil => rfl
  | cons x xs ih =>
    by_cases hx : x = c
    · subst hx
      simp [splitChar, List.takeWhile_cons]
    · rcases h : splitChar c xs with _ | ⟨y, ys⟩
      · exact absurd h (splitChar_ne_nil c xs)
      · rw [h] at ih
        have hder : y = xs.takeWhile (fun a => a ≠ c) := by simpa using ih
        simp [splitChar, hx, h, List.takeWhile_cons, hder]


/-- The last `splitChar` segment is the text after the last separator. -/
theorem splitChar_getLastD (c : Char) (s : List Char) :
    (splitChar c s).getLastD [] =
      (s.reverse.takeWhile (fun a => a ≠ c)).reverse := by
  induction s with
  | nil => rfl
  | cons x xs ih =>
    by_cases hx : x = c
    · rw [hx]
      have hstep : (splitChar c (c :: xs)).getLastD [] =
          (splitChar c xs).getLastD [] := by
        rcases hq : splitChar c xs with _ | ⟨y, ys⟩
        · exact absurd hq (splitChar_ne_nil c xs)
        · simp [splitChar, hq, List.getLastD_cons]
      have htw : ((c :: xs).reverse.takeWhile (fun a => a ≠ c)) =
          (xs.reverse.takeWhile (fun a => a ≠ c)) := by
        rw [List.reverse_cons]
        exact takeWhile_append_stop (fun a => decide (a ≠ c)) c xs.reverse []
          (by simp)
      rw [hstep, htw, ih]
    · rcases h : splitChar c xs with _ | ⟨y, ys⟩
      · exact absurd h (splitChar_ne_nil c xs)
      · have hsc : splitChar c (x :: xs) = (x :: y) :: ys := by
          simp [splitChar, hx, h]
        rcases ys with _ | ⟨z, zs⟩
        · have hnomem : c ∉ xs := by
            intro hc
            rcases splitChar_mem_cons_cons c xs hc with ⟨u, v, w, huvw⟩
            rw [h] at huvw
            cases huvw
          have hyxs : y = xs := by
            have h2 := splitChar_no_sep c xs hnomem
            rw [h] at h2
            simpa using h2
          rw [hsc, hyxs]
          have hall : ∀ a ∈ xs.reverse ++ [x], (fun a => decide (a ≠ c)) a = true := by
            intro a ha
            rcases List.mem_append.mp ha with hm | hm
            · have hmx := List.mem_reverse.mp hm
              simp only [decide_eq_true_eq]
              intro e
              exact hnomem (e ▸ hmx)
            · have hax : a = x := by simpa using hm
              simp [hax, hx]
          have htw := List.takeWhile_eq_self_iff.mpr hall
          rw [List.reverse_cons, htw]
          simp
        · have hmem : c ∈ xs := by
            by_contra hc
            have h2 := splitChar_no_sep c xs hc
            rw [h] at h2
            cases h2
          rw [hsc]
          have e1 : ((x :: y) :: z :: zs).getLastD [] = (splitChar c xs).getLastD [] := by
            rw [h]
            simp [List.getLastD_cons]
          rw [e1, ih]
          have htw2 : ((x :: xs).reverse.takeWhile (fun a => a ≠ c)) =
              (xs.reverse.takeWhile (fun a => a ≠ c)) := by
            rw [List.reverse_cons]
            exact takeWhile_append_of_mem_false (fun a => decide (a ≠ c))
              xs.reverse [x] ⟨c, List.mem_reverse.mpr hmem, by simp⟩
          rw [htw2]

/-- Claim C8.  For every header line, `parse_book_info` returns exactly the
values the specification describes: the trimmed text before the first `(`
as the title, and the comma-split, trimmed author list taken from the text
after the last `(` with the trailing `)` characters removed.  This holds
for all header lines, in particular those whose title itself contains
parentheses. -/
theorem claim_C8 (s : List Char) :
    parse_book_info s = (specTitleOf s, specAuthorsOf s) := by
  simp only [parse_book_info, specTitleOf, specAuthorsOf, afterLastParen]
  rw [splitChar_headD, splitChar_getLastD]

/-! ## Claim C10 — header lines without parentheses -/

/-- `rstrip(')')` is the identity on strings not ending in `)`. -/
theorem rstripParen_eq_self (s : List Char) (h : s.getLast? ≠ some ')') :
    rstripParen s = s := by
  unfold rstripParen
  rcases hr : s.reverse with _ | ⟨a, t⟩
  · have hse : s = [] := List.reverse_eq_nil_iff.mp hr
    rw [hse]
    rfl
  · have ha : ¬ (a = ')') := by
      intro e
      apply h
      rw [← List.head?_reverse, hr, e]
      rfl
    have hs : s = (a :: t).reverse := by rw [← hr, List.reverse_reverse]
    rw [List.dropWhile_cons, if_neg (by simp [ha])]
    exact hs.symm

/-- Claim C10, counterexample.  The claim says a header line without `(`
yields a one-element author list equal to the trimmed line; but the line is
still split on commas: `Hello, World` yields the two authors `Hello` and
`World`, not one. -/
theorem claim_C10_counterexample :
    ('(' ∉ "Hello, World".data) ∧
      parse_book_info ("Hello, World".data) =
        (("Hello, World".data), ["Hello".data, "World".data]) ∧
      (parse_book_info ("Hello, World".data)).2 ≠
        [(parse_book_info ("Hello, World".data)).1] := by
  decide

/-- Claim C10, amended.  For a header line containing no `(`, the whole
trimmed line is the title, and the author list is the line with trailing
`)` characters removed, split on commas and trimmed; in particular, when
the line also contains no comma and does not end in `)`, the author list is
the one-element list duplicating the trimmed line. -/
theorem claim_C10_amended (s : List Char) (h1 : '(' ∉ s) (h2 : ',' ∉ s)
    (h3 : s.getLast? ≠ some ')') :
    parse_book_info s = (pyStrip s, [pyStrip s]) := by
  simp only [parse_book_info]
  rw [splitChar_no_sep '(' s h1]
  simp only [List.headD_cons, List.getLastD_cons, List.getLastD_nil]
  rw [rstripParen_eq_self s h3, splitChar_no_sep ',' s h2]
  simp

/-- Claim C10 amended, witness at a concrete comma-free header line. -/
theorem claim_C10_amended_witness :
    parse_book_info ("The Title".data) =
      (pyStrip ("The Title".data), [pyStrip ("The Title".data)]) :=
  claim_C10_amended ("The Title".data) (by decide) (by decide) (by decide)

/-! ## Claims C1 and C2 — attaching notes to highlights -/

/-- The reversed-order scan attaches the note at the first matching
highlight, provided every highlight scanned before it has a present
location. -/
theorem noteMatchScan_skip (note : Note) (nl : Location)
    (hnl : note.location = some nl) (l1 l2 : List Highlight)
    (hM : Highlight) (lM : Location) (hMl : hM.location = some lM)
    (hstart : lM.start = nl.start)
    (hskip : ∀ h ∈ l1, ∃ lh, h.location = some lh ∧ lh.start ≠ nl.start) :
    noteMatchScan note (l1 ++ hM :: l2) =
      .ok (some (l1 ++ ({ hM with note := some note } :: l2))) := by
  induction l1 with
  | nil =>
    simp [noteMatchScan, hMl, hnl, hstart]
  | cons h0 t ih =>
    obtain ⟨lh, hlh, hne⟩ := hskip h0 (List.mem_cons_self h0 t)
    have iht := ih (fun h hh => hskip h (List.mem_cons_of_mem h0 hh))
    simp [noteMatchScan, hlh, hnl, hne, iht]

/-- The reversed-order scan reports no match when every highlight has a
present location with a different start. -/
theorem noteMatchScan_none (note : Note) (nl : Location)
    (hnl : note.location = some nl) (l : List Highlight)
    (hskip : ∀ h ∈ l, ∃ lh, h.location = some lh ∧ lh.start ≠ nl.start) :
    noteMatchScan note l = .ok none := by
  induction l with
  | nil => rfl
  | cons h0 t ih =>
    obtain ⟨lh, hlh, hne⟩ := hskip h0 (List.mem_cons_self h0 t)
    have iht := ih (fun h hh => hskip h (List.mem_cons_of_mem h0 hh))
    simp [noteMatchScan, hlh, hnl, hne, iht]

/-- Claim C1, amended.  When the book highlights decompose as
`pre ++ hM :: post` with `hM` matching the location start of the note and
every LATER-added highlight (`post`) carrying a present location with a
different start, `add_note` overwrites the `note` field of `hM` — the most
recently appended matching highlight — and does not append the note to
`book.notes`.  (The unamended claim fails when a later highlight has an
absent location: the scan then raises before reaching the match.) -/
theorem claim_C1_amended (book : Book) (note : Note)
    (pre post : List Highlight) (hM : Highlight) (nl lM : Location)
    (hb : book.highlights = pre ++ hM :: post)
    (hnl : note.location = some nl) (hMl : hM.location = some lM)
    (hstart : lM.start = nl.start)
    (hpost : ∀ h ∈ post, ∃ lh, h.location = some lh ∧ lh.start ≠ nl.start) :
    add_note book note =
      .ok { book with
            highlights := pre ++ ({ hM with note := some note } :: post) } := by
  unfold add_note
  rw [hb]
  have hrev : (pre ++ hM :: post).reverse = post.reverse ++ hM :: pre.reverse := by
    simp [List.reverse_append]
  rw [hrev, noteMatchScan_skip note nl hnl post.reverse pre.reverse hM lM hMl
    hstart (fun h hh => hpost h (List.mem_reverse.mp hh))]
  simp [List.reverse_append]

/-- Claim C1 amended, witness: a note matching the single highlight of
`bookC2` is attached to it. -/
theorem claim_C1_amended_witness :
    add_note bookC2 noteLoc5 =
      .ok { bookC2 with
            highlights := [{ hlLoc5 with note := some noteLoc5 }] } :=
  claim_C1_amended bookC2 noteLoc5 [] [] hlLoc5 ⟨5, none⟩ ⟨5, none⟩
    (by decide) (by decide) (by decide) (by decide) (by decide)

/-- Claim C1, counterexample.  In `bookC1` a highlight matching the note
start 5 exists (the oldest one), but the more recently appended highlight
has an absent location, so the scan raises `AttributeError` instead of
attaching the note: the claim as stated predicts attachment whenever a
matching highlight exists. -/
theorem claim_C1_counterexample :
    (∃ h ∈ bookC1.highlights,
        h.location.map Location.start = noteLoc5.location.map Location.start) ∧
      add_note bookC1 noteLoc5 = .error () := by
  decide

/-- Claim C2, amended.  When the note has a present location whose start
matches no highlight of the book, and every highlight of the book has a
present location, the note is appended to `book.notes` and no highlight is
mutated.  (The unamended claim also covered notes or highlights with
absent locations; those make the scan raise instead, see the
counterexample.) -/
theorem claim_C2_amended (book : Book) (note : Note) (nl : Location)
    (hnl : note.location = some nl)
    (hnomatch : ∀ h ∈ book.highlights, ∃ lh, h.location = some lh ∧
        lh.start ≠ nl.start) :
    add_note book note = .ok { book with notes := book.notes ++ [note] } := by
  unfold add_note
  rw [noteMatchScan_none note nl hnl book.highlights.reverse
    (fun h hh => hnomatch h (List.mem_reverse.mp hh))]

/-- Claim C2 amended, witness: a note at start 9 matches nothing in
`bookC2` and lands in the notes list. -/
theorem claim_C2_amended_witness :
    add_note bookC2 noteLoc9 =
      .ok { bookC2 with notes := bookC2.notes ++ [noteLoc9] } :=
  claim_C2_amended bookC2 noteLoc9 ⟨9, none⟩ (by decide) (by decide)

/-- Claim C2, counterexample.  A note with an absent location added to a
book holding one located highlight makes the scan raise `AttributeError`;
the note is NOT appended to `book.notes`, although the claim as stated
(which includes notes with absent locations) predicts it is. -/
theorem claim_C2_counterexample :
    noteNoLoc.location = none ∧
      add_note bookC2 noteNoLoc = .error () ∧
      add_note bookC2 noteNoLoc ≠
        .ok { bookC2 with notes := bookC2.notes ++ [noteNoLoc] } := by
  decide

/-! ## Claim C3 — parsing is independent of the dedup ledger -/

/-- One parse step only reads the book list; the error list is appended to
and the ledger fields pass through untouched. -/
theorem parse_step_char (b : List Book) (x : Nat × List Char) :
    ∃ nb δ, ∀ (e : List Error) (p : List (List Char)) (t : Option DateTime),
      parse_step ⟨b, e, p, t⟩ x = ⟨nb, e ++ δ, p, t⟩ := by
  by_cases hs : pyStrip x.2 = []
  · exact ⟨b, [], fun e p t => by simp [parse_step, hs]⟩
  · rcases hp : parse_entry b (pyStrip x.2) x.1 with ⟨bs, m⟩ | bs
    · exact ⟨bs, [⟨x.1, m⟩], fun e p t => by simp [parse_step, hs, hp]⟩
    · exact ⟨bs, [], fun e p t => by simp [parse_step, hs, hp]⟩

/-- Folding the parse step: the final books and the appended errors are
functions of the initial books and the blocks alone. -/
theorem foldl_parse_step_char (l : List (Nat × List Char)) :
    ∀ b : List Book, ∃ nb δ,
      ∀ e p t, l.foldl parse_step ⟨b, e, p, t⟩ = ⟨nb, e ++ δ, p, t⟩ := by
  induction l with
  | nil => exact fun b => ⟨b, [], fun e p t => by simp⟩
  | cons x xs ih =>
    intro b
    obtain ⟨b1, δ1, hstep⟩ := parse_step_char b x
    obtain ⟨nb, δ2, hfold⟩ := ih b1
    refine ⟨nb, δ1 ++ δ2, fun e p t => ?_⟩
    rw [List.foldl_cons, hstep e p t, hfold (e ++ δ1) p t, List.append_assoc]

/-- Claim C3.  The books and errors produced by `parse_clippings` on a
given text do not depend on the contents of `processed_entries` (or on
`last_processed_timestamp`): `is_processed` is never consulted, so every
block — including byte-identical duplicates of already-fingerprinted
blocks — is parsed and merged on every run. -/
theorem claim_C3 (content : List Char) (bks : List Book) (errs : List Error)
    (p1 p2 : List (List Char)) (t1 t2 : Option DateTime) :
    (parse_clippings ⟨bks, errs, p1, t1⟩ content).books =
        (parse_clippings ⟨bks, errs, p2, t2⟩ content).books ∧
      (parse_clippings ⟨bks, errs, p1, t1⟩ content).errors =
        (parse_clippings ⟨bks, errs, p2, t2⟩ content).errors := by
  obtain ⟨nb, δ, h⟩ := foldl_parse_step_char ((splitEq (clean_text content)).enum) bks
  unfold parse_clippings
  rw [h errs p1 t1, h errs p2 t2]
  exact ⟨rfl, rfl⟩

/-! ## Claim C9 — authors are never updated after creation -/

/-- `authorsStable` is reflexive. -/
theorem authorsStable_refl (bs : List Book) : authorsStable bs bs :=
  fun _ b h => ⟨b, h, rfl⟩

/-- `authorsStable` is transitive. -/
theorem authorsStable_trans {a b c : List Book} (h1 : authorsStable a b)
    (h2 : authorsStable b c) : authorsStable a c := by
  intro title x hx
  obtain ⟨y, hy, hay⟩ := h1 title x hx
  obtain ⟨z, hz, haz⟩ := h2 title y hy
  exact ⟨z, hz, haz.trans hay⟩

/-- `get_or_create_book` keeps every existing book untouched. -/
theorem authorsStable_get_or_create (books : List Book) (t : List Char)
    (a : List (List Char)) :
    authorsStable books (get_or_create_book books t a) := by
  intro title b h
  refine ⟨b, ?_, rfl⟩
  unfold get_or_create_book
  by_cases hany : books.any (fun x => x.title = t) = true
  · rw [if_pos hany]
    exact h
  · rw [if_neg hany, List.find?_append, h]
    rfl

/-- `find?` after `updateBook`, for an update that does not change the
title of the books it touches. -/
theorem updateBook_find? (books : List Book) (t : List Char) (f : Book → Book)
    (title : List Char) (hf : ∀ x, x.title = t → (f x).title = x.title) :
    (updateBook books t f).find? (fun x => x.title = title) =
      (books.find? (fun x => x.title = title)).map
        (fun b => if b.title = t then f b else b) := by
  induction books with
  | nil => rfl
  | cons bb rest ih =>
    have hgt : (if bb.title = t then f bb else bb).title = bb.title := by
      by_cases hbt : bb.title = t
      · simp [hbt, hf bb hbt]
      · simp [hbt]
    simp only [updateBook, List.map_cons] at ih ⊢
    by_cases hq : bb.title = title
    · rw [List.find?_cons_of_pos _ (by rw [hgt, hq]; simp),
        List.find?_cons_of_pos _ (by simp [hq])]
      rfl
    · rw [List.find?_cons_of_neg _ (by simp [hgt, hq]),
        List.find?_cons_of_neg _ (by simp [hq])]
      exact ih

/-- `updateBook` with a title- and authors-preserving update keeps every
book lookup stable. -/
theorem authorsStable_updateBook (books : List Book) (t : List Char)
    (f : Book → Book)
    (hf : ∀ x, x.title = t → (f x).title = x.title ∧ (f x).authors = x.authors) :
    authorsStable books (updateBook books t f) := by
  intro title b h
  refine ⟨if b.title = t then f b else b, ?_, ?_⟩
  · rw [updateBook_find? books t f title (fun x hx => (hf x hx).1), h]
    rfl
  · by_cases hbt : b.title = t
    · simp [hbt, (hf b hbt).2]
    · simp [hbt]

/-- `add_highlight` keeps every existing book and its authors. -/
theorem authorsStable_add_highlight (books : List Book) (title : List Char)
    (authors : List (List Char)) (content : List Char)
    (location : Option Location) (date_added : DateTime) (page : Option Nat) :
    authorsStable books
      (add_highlight books title authors content location date_added page) := by
  unfold add_highlight
  exact authorsStable_trans
    (authorsStable_get_or_create books title authors)
    (authorsStable_updateBook _ title _ (fun x _ => ⟨rfl, rfl⟩))

/-- `add_bookmark` keeps every existing book and its authors. -/
theorem authorsStable_add_bookmark (books : List Book) (title : List Char)
    (authors : List (List Char)) (location : Option Location)
    (date_added : DateTime) (page : Option Nat) :
    authorsStable books
      (add_bookmark books title authors location date_added page) := by
  unfold add_bookmark
  exact authorsStable_trans
    (authorsStable_get_or_create books title authors)
    (authorsStable_updateBook _ title _ (fun x _ => ⟨rfl, rfl⟩))

/-- A successful `add_note` changes neither the title nor the authors of
the book. -/
theorem add_note_ok_frame (b : Book) (n : Note) (b2 : Book)
    (h : add_note b n = .ok b2) : b2.title = b.title ∧ b2.authors = b.authors := by
  unfold add_note at h
  rcases hscan : noteMatchScan n b.highlights.reverse with e | o
  · rw [hscan] at h
    cases h
  · rw [hscan] at h
    rcases o with _ | hs
    · simp only [Except.ok.injEq] at h
      rw [← h]
      exact ⟨rfl, rfl⟩
    · simp only [Except.ok.injEq] at h
      rw [← h]
      exact ⟨rfl, rfl⟩

/-- `add_note_state` keeps every existing book and its authors, whether or
not the scan raises. -/
theorem authorsStable_add_note_state (books : List Book) (title : List Char)
    (authors : List (List Char)) (content : List Char)
    (date_added : DateTime) (location : Option Location) (page : Option Nat) :
    authorsStable books
      (exceptBooks
        (add_note_state books title authors content date_added location page)) := by
  unfold add_note_state
  have hg := authorsStable_get_or_create books title authors
  rcases hf : (get_or_create_book books title authors).find?
      (fun b => b.title = title) with _ | bf
  · simpa [exceptBooks, hf] using hg
  · have hbf : bf.title = title := by
      have := List.find?_some hf
      simpa using this
    rcases han : add_note bf
        { content := content, date_added := date_added, page := page,
          location := location } with e | b2
    · simpa [exceptBooks, hf, han] using hg
    · obtain ⟨ht2, ha2⟩ := add_note_ok_frame _ _ _ han
      have hupd : authorsStable (get_or_create_book books title authors)
          (updateBook (get_or_create_book books title authors) title
            (fun _ => b2)) := by
        intro title2 b h
        have hbt2 : b.title = title2 := by simpa using List.find?_some h
        refine ⟨if b.title = title then b2 else b, ?_, ?_⟩
        · rw [updateBook_find? _ title (fun _ => b2) title2
            (fun x hx => by rw [ht2, hbf, hx]), h]
          rfl
        · by_cases hcase : b.title = title
          · have htt : title2 = title := by rw [← hbt2, hcase]
            rw [htt] at h
            have hb : b = bf := by
              rw [h] at hf
              injection hf
            simp [hb, hbf, ha2]
          · simp [hcase]
      exact authorsStable_trans hg (by simpa [exceptBooks, hf, han] using hupd)

/-- `parse_entry` keeps every existing book and its authors, whether it
succeeds or raises. -/
theorem authorsStable_parse_entry (books : List Book) (entry : List Char)
    (i : Nat) :
    authorsStable books
      (match parse_entry books entry i with
       | .ok bs => bs
       | .error (bs, _) => bs) := by
  rcases hsp : splitChar '\n' entry with _ | ⟨l0, t⟩
  · simp only [parse_entry, hsp]
    exact authorsStable_refl books
  · rcases t with _ | ⟨l1, rest⟩
    · simp only [parse_entry, hsp]
      exact authorsStable_refl books
    · simp only [parse_entry, hsp]
      rcases hm : parse_metadata (pyStrip l1) with e | ⟨et, pg, loc, dt⟩
      · simp only [hm]
        exact authorsStable_refl books
      · simp only [hm]
        by_cases h1 : et = "Highlight".data
        · simp only [h1, if_true]
          exact authorsStable_add_highlight books _ _ _ _ _ _
        · by_cases h2 : et = "Note".data
          · simp only [h1, h2, if_false, if_true]
            rcases hans : add_note_state books (parse_book_info (pyStrip l0)).1
                (parse_book_info (pyStrip l0)).2
                (pyStrip (List.intercalate ['\n'] rest)) dt loc pg with bs | bs
            · have h := authorsStable_add_note_state books
                (parse_book_info (pyStrip l0)).1 (parse_book_info (pyStrip l0)).2
                (pyStrip (List.intercalate ['\n'] rest)) dt loc pg
              rw [hans] at h
              simpa [exceptBooks] using h
            · have h := authorsStable_add_note_state books
                (parse_book_info (pyStrip l0)).1 (parse_book_info (pyStrip l0)).2
                (pyStrip (List.intercalate ['\n'] rest)) dt loc pg
              rw [hans] at h
              simpa [exceptBooks] using h
          · by_cases h3 : et = "Bookmark".data
            · simp only [h1, h2, h3, if_false, if_true]
              exact authorsStable_add_bookmark books _ _ _ _ _
            · simp only [h1, h2, h3, if_false]
              exact authorsStable_refl books

/-- One parse step keeps every existing book and its authors. -/
theorem authorsStable_parse_step (st : KindleParser) (x : Nat × List Char) :
    authorsStable st.books (parse_step st x).books := by
  by_cases hs : pyStrip x.2 = []
  · simp only [parse_step, hs, if_true]
    exact authorsStable_refl _
  · have h := authorsStable_parse_entry st.books (pyStrip x.2) x.1
    rcases hp : parse_entry st.books (pyStrip x.2) x.1 with ⟨bs, m⟩ | bs
    · rw [hp] at h
      simp only [parse_step, hs, if_false, hp]
      exact h
    · rw [hp] at h
      simp only [parse_step, hs, if_false, hp]
      exact h

/-- Folding parse steps keeps every existing book and its authors. -/
theorem authorsStable_foldl (l : List (Nat × List Char)) :
    ∀ st : KindleParser, authorsStable st.books (l.foldl parse_step st).books := by
  induction l with
  | nil => exact fun st => authorsStable_refl _
  | cons x xs ih =>
    intro st
    exact authorsStable_trans (authorsStable_parse_step st x)
      (ih (parse_step st x))

/-- Claim C9.  The author list of a book is recorded only at its creation:
whatever entries a clippings text contains — same title, different author
strings, any entry type — parsing leaves the authors of every
already-existing book unchanged. -/
theorem claim_C9 (st : KindleParser) (content : List Char)
    (title : List Char) (b : Book)
    (h : st.books.find? (fun x => x.title = title) = some b) :
    ∃ b2, (parse_clippings st content).books.find?
        (fun x => x.title = title) = some b2 ∧ b2.authors = b.authors := by
  unfold parse_clippings
  exact authorsStable_foldl _ st title b h

/-- Claim C9, witness: parsing an entry that carries the title of `bookC2`
with a different author list leaves the stored authors unchanged. -/
theorem claim_C9_witness :
    ∃ b2, (parse_clippings stC9 contentC9).books.find?
        (fun x => x.title = "B".data) = some b2 ∧
      b2.authors = ["A0".data] :=
  claim_C9 stC9 contentC9 ("B".data) bookC2 (by decide)
